import Mathlib

/-!
Verification of the mapaClientes reconciliation pipeline.

The JavaScript sources are shallowly embedded below: pure string munging
becomes Lean functions over `String` / `List Char`; the network layer is
modelled by explicit outcome schedules fed to the retry loops; the MySQL
tables touched by the sync driver become association lists threaded through
the functions.  JavaScript `String.prototype.trim`, `toLowerCase` and the
regular expressions of the source are translated operation by operation;
Unicode NFD decomposition is modelled as the identity (inputs are assumed
decomposed), with combining marks U+0300..U+036F stripped exactly as the
source does.
-/

set_option maxRecDepth 4000

namespace MapaClientes

/-- JavaScript whitespace test used by `trim`, `\s` and friends. -/
def wsChar (c : Char) : Bool := c.isWhitespace

/-- `String.prototype.trim` on a char list. -/
def trimL (cs : List Char) : List Char :=
  ((cs.dropWhile wsChar).reverse.dropWhile wsChar).reverse

/-- `String.prototype.trim`. -/
def jsTrim (s : String) : String := String.mk (trimL s.data)

/-- `x || y` on JavaScript strings (empty string is falsy). -/
def jsOr (a b : String) : String := if a = "" then b else a

/-- `replace(/\D/g, "")`: keep only ASCII digits. -/
def cleanDigits (s : String) : String := String.mk (s.data.filter Char.isDigit)

/-- Split a char list at every char satisfying `p`, keeping empty chunks,
mirroring `String.prototype.split` on a single-char class. -/
def splitChars (p : Char → Bool) : List Char → List (List Char)
  | [] => [[]]
  | c :: rest =>
    let r := splitChars p rest
    if p c then [] :: r
    else
      match r with
      | [] => [[c]]
      | h :: t => (c :: h) :: t

/-- `s.split(sep-class)` as a list of strings. -/
def jsSplit (s : String) (p : Char → Bool) : List String :=
  (splitChars p s.data).map String.mk

/-- `replace(/\s+/g, " ").trim()`: collapse every whitespace run to one
space and drop leading/trailing whitespace. -/
def collapseWsTrim (s : String) : String :=
  String.intercalate (" ") (((jsSplit s wsChar).map jsTrim).filter (fun t => t ≠ ""))

/-- Substring test, `hay.includes(needle)`. -/
def strContains (hay needle : String) : Bool :=
  (List.range (hay.data.length + 1)).any (fun i => needle.data.isPrefixOf (hay.data.drop i))

/-- Insertion-order deduplication, the observable content of a JS `Set`. -/
def dedupFirst (l : List String) : List String :=
  l.foldl (fun acc n => if n ∈ acc then acc else acc ++ [n]) []

/-- Digits to a number, `parseInt(digits, 10)`. -/
def digitsToNat (ds : List Char) : Nat :=
  ds.foldl (fun acc c => acc * 10 + (c.toNat - ('0').toNat)) 0


/-! ## Name Matcher (sync.js `stripAccentsLocal` / `normalizeNameLocal` /
`nameCandidatesLocal` / `findMatchingPartner`) -/

/-- Combining-diacritic test for the `replace(/[̀-ͯ]/g, "")` step. -/
def combiningMark (c : Char) : Bool :=
  decide (0x300 ≤ c.toNat ∧ c.toNat ≤ 0x36F)

/-- `stripAccentsLocal`: `normalize("NFD")` (modelled as the identity on the
already-decomposed embedded strings) followed by removal of the combining
marks U+0300..U+036F and `trim()`. -/
def stripAccentsLocal (s : String) : String :=
  jsTrim (String.mk (s.data.filter (fun c => !combiningMark c)))

/-- `toLowerCase()` (ASCII case mapping, enough for the embedded inputs). -/
def jsToLower (s : String) : String := String.mk (s.data.map Char.toLower)

/-- `toUpperCase()` (ASCII case mapping). -/
def jsToUpper (s : String) : String := String.mk (s.data.map Char.toUpper)

/-- `normalizeNameLocal`: strip accents, collapse whitespace, trim,
lower-case. -/
def normalizeNameLocal (s : String) : String :=
  jsToLower (collapseWsTrim (stripAccentsLocal s))

/-- `nameCandidatesLocal`: the whole trimmed string plus, when it contains a
comma, the trimmed non-empty substrings before and after the first comma
(JS array destructuring takes the first two pieces); collected through a
`Set`, so in insertion order without duplicates. -/
def nameCandidatesLocal (original : String) : List String :=
  let raw := jsTrim original
  if raw = "" then []
  else
    let base := [raw]
    if raw.data.contains ',' then
      let pieces := ((jsSplit raw (fun c => c = ',')).map jsTrim).filter (fun t => t ≠ "")
      let a := (pieces.get? 0).toList
      let b := (pieces.get? 1).toList
      dedupFirst (base ++ a ++ b)
    else base

/-- One CRM partner record, with `""` standing for an absent field (the CRM
returns `false` for unset char fields, which the JS `||` chains treat the
same as the empty string). -/
structure Partner where
  id : Nat
  name : String
  displayName : String
  deriving DecidableEq

/-- The single normalized key the matcher computes per partner:
`normalizeNameLocal(p.display_name || p.name || "")`. -/
def partnerNorm (p : Partner) : String :=
  normalizeNameLocal (jsOr p.displayName p.name)

/-- The normalized, non-empty candidate strings of a requested name. -/
def normCandidates (requestedName : String) : List String :=
  ((nameCandidatesLocal requestedName).map normalizeNameLocal).filter (fun c => c ≠ "")

/-- The exact-match stage: the first partner whose normalized key is one of
the candidates. -/
def exactFind (requestedName : String) (partners : List Partner) : Option Partner :=
  partners.find? (fun p => (normCandidates requestedName).contains (partnerNorm p))

/-- The fuzzy scoring list: for each partner (in order) and each candidate
(in order), an entry when the two normalized strings are non-empty and one
contains the other; the recorded length is the partner key's length.  All
recorded scores are 1 in the source, so only the length matters. -/
def fuzzyScores (requestedName : String) (partners : List Partner) : List (Partner × Nat) :=
  partners.foldl
    (fun acc p =>
      let pn := partnerNorm p
      acc ++ ((normCandidates requestedName).filterMap (fun c =>
        if pn ≠ "" ∧ c ≠ "" ∧ (strContains pn c || strContains c pn) then
          some (p, pn.data.length)
        else none)))
    []

/-- Head of the stable sort by descending length: the first entry whose
length is maximal (`scores.sort((a,b) => b.score - a.score || b.len - a.len)`
followed by `scores[0]`, with every score equal to 1). -/
def bestScore : List (Partner × Nat) → Option (Partner × Nat)
  | [] => none
  | x :: xs => some (xs.foldl (fun best y => if best.2 < y.2 then y else best) x)

/-- `findMatchingPartner` from sync.js: candidates, exact stage, then fuzzy
stage. -/
def findMatchingPartner (requestedName : String) (partners : List Partner) : Option Partner :=
  if (normCandidates requestedName) = [] then none
  else
    match exactFind requestedName partners with
    | some p => some p
    | none => (bestScore (fuzzyScores requestedName partners)).map (fun x => x.1)


/-! ## Transport errors and the Nominatim call discipline (geocode.js) -/

/-- A JavaScript error as the pipeline observes it: the `name`, `code` and
`message` fields, each `""` when absent. -/
structure JsErr where
  name : String := ""
  code : String := ""
  message : String := ""
  deriving DecidableEq

deriving instance DecidableEq for Except

/-- `isRetryableNetworkError` from geocode.js. -/
def isRetryableNetworkError (err : JsErr) : Bool :=
  let code := err.code
  let msg := jsToLower err.message
  code = "ECONNRESET" || code = "ECONNABORTED" || code = "ETIMEDOUT" ||
    strContains msg ("socket hang up") || strContains msg ("timeout") ||
    strContains msg ("network")

/-- One Nominatim hit; the provider encodes `lat`/`lon` as strings and the
caller applies `parseFloat`, which the embedding leaves symbolic. -/
structure GeoHit where
  lat : String
  lon : String
  deriving DecidableEq

/-- What one HTTP call to a Nominatim host yields, as seen by the code:
either a response object with a status and a body (an array of hits when
`isArray`), or a thrown transport error. -/
inductive NomOutcome where
  | resp (status : Nat) (isArray : Bool) (hits : List GeoHit)
  | netErr (e : JsErr)

/-- The inner attempt loop of `nominatimSearch` for one host: `fuel`
remaining attempts, `start` the index of the next call in the outcome
schedule.  Returns the response data on a 200 array response, `none` when
the host is abandoned or the attempts are exhausted, plus the index after
the consumed calls.  429/503 responses and retryable transport errors
retry; any other status or error abandons the host. -/
def runAttempts (sched : Nat → NomOutcome) : Nat → Nat → Option (List GeoHit) × Nat
  | 0, start => (none, start)
  | fuel + 1, start =>
    match sched start with
    | NomOutcome.resp status isArray hits =>
      if status = 200 ∧ isArray then (some hits, start + 1)
      else if status = 429 ∨ status = 503 then runAttempts sched fuel (start + 1)
      else (none, start + 1)
    | NomOutcome.netErr e =>
      if isRetryableNetworkError e then runAttempts sched fuel (start + 1)
      else (none, start + 1)

/-- `NOMINATIM_HOSTS`: the single configured host. -/
def nominatimHosts : List String := ["https://nominatim.openstreetmap.org"]

/-- The per-host loop of `nominatimSearch`: 4 attempts per host, moving to
the next host when one is abandoned; `null` (here `none`) after every host
failed. -/
def runNomHosts (sched : Nat → NomOutcome) : List String → Nat → Option (List GeoHit) × Nat
  | [], start => (none, start)
  | _ :: rest, start =>
    match runAttempts sched 4 start with
    | (some hits, n) => (some hits, n)
    | (none, n) => runNomHosts sched rest n

/-- `nominatimSearch(query)`: the full host/attempt discipline over the
outcome schedule; the query string only shapes the URL, not the control
flow. -/
def nominatimSearch (sched : Nat → NomOutcome) (_query : String) (start : Nat) :
    Option (List GeoHit) × Nat :=
  runNomHosts sched nominatimHosts start


/-! ## The geocoding resolver (geocode.js `geocode`) -/

/-- The body of a ViaCEP response. -/
structure ViaCepData where
  erro : Bool := false
  logradouro : String := ""
  bairro : String := ""
  localidade : String := ""
  uf : String := ""
  deriving DecidableEq

/-- One Google geocoding result's `geometry.location`, its numbers kept
symbolic as strings. -/
structure GoogleLoc where
  lat : String
  lng : String
  deriving DecidableEq

/-- A coordinate pair as `geocode` returns it (floats kept symbolic). -/
structure GeoPoint where
  lat : String
  lng : String
  deriving DecidableEq

/-- The external world one `geocode` call sees: the optional Google key,
what `viaCepGet` yields (a response, `null` after its retries, or a thrown
non-retryable error), what the Google request yields, and the schedule of
Nominatim call outcomes. -/
structure GeoEnv where
  googleKey : Option String
  viaCep : Except JsErr (Option ViaCepData)
  google : Except JsErr (List GoogleLoc)
  nomSched : Nat → NomOutcome

/-- Collapse whitespace runs to a single space, `replace(/\s+/g, " ")`,
without trimming. -/
def collapseWsAux : Bool → List Char → List Char
  | _, [] => []
  | prevWs, c :: rest =>
    if wsChar c then
      if prevWs then collapseWsAux true rest else ' ' :: collapseWsAux true rest
    else c :: collapseWsAux false rest

/-- `replace(/,\s*,/g, ",")` on a string whose whitespace runs were already
collapsed to single spaces by the preceding replace; scanning resumes after
each replacement, as in JS. -/
def replCommaComma : List Char → List Char
  | [] => []
  | ',' :: ',' :: rest => ',' :: replCommaComma rest
  | ',' :: ' ' :: ',' :: rest => ',' :: replCommaComma rest
  | c :: rest => c :: replCommaComma rest

/-- `enderecoViaCep`: the template-joined ViaCEP fields, whitespace
collapsed, duplicate comma separators dropped, trimmed. -/
def viaCepAddress (d : ViaCepData) : String :=
  let raw := d.logradouro ++ ", " ++ d.bairro ++ ", " ++ d.localidade ++ ", " ++ d.uf ++ ", Brasil"
  jsTrim (String.mk (replCommaComma (collapseWsAux false raw.data)))

/-- `geocode` before its outer `catch`: `Except.error` is a raised error
reaching that catch.  Steps: ViaCEP on a valid 8-digit CEP, Google when
keyed, Nominatim on the ViaCEP address, then the free-text Nominatim
fallback when the text is at least 8 chars after trimming. -/
def geocodeAux (env : GeoEnv) (endereco cep : String) : Except JsErr (Option GeoPoint) := do
  let step1 : Option GeoPoint × Nat ←
    (if cep ≠ "" ∧ (cleanDigits cep).data.length = 8 then
      match env.viaCep with
      | Except.error e => Except.error e
      | Except.ok none => Except.ok (none, 0)
      | Except.ok (some d) =>
        if d.erro then Except.ok (none, 0)
        else
          let q := viaCepAddress d
          let googleHit : Except JsErr (Option GeoPoint) :=
            match env.googleKey with
            | some _ =>
              match env.google with
              | Except.error e => Except.error e
              | Except.ok (h :: _) => Except.ok (some ⟨h.lat, h.lng⟩)
              | Except.ok [] => Except.ok none
            | none => Except.ok none
          match googleHit with
          | Except.error e => Except.error e
          | Except.ok (some pt) => Except.ok (some pt, 0)
          | Except.ok none =>
            match nominatimSearch env.nomSched q 0 with
            | (some (h :: _), n) => Except.ok (some ⟨h.lat, h.lon⟩, n)
            | (some [], n) => Except.ok (none, n)
            | (none, n) => Except.ok (none, n)
    else Except.ok (none, 0))
  match step1 with
  | (some pt, _) => pure (some pt)
  | (none, n) =>
    if endereco = "" ∨ (jsTrim endereco).data.length < 8 then pure none
    else
      match nominatimSearch env.nomSched endereco n with
      | (some (h :: _), _) => pure (some ⟨h.lat, h.lon⟩)
      | _ => pure none

/-- `geocode`: the outer `try/catch` turns every raised error into `null`. -/
def geocode (env : GeoEnv) (endereco cep : String) : Option GeoPoint :=
  match geocodeAux env endereco cep with
  | Except.ok r => r
  | Except.error _ => none

/-! ## Canonical address building (sync.js `cleanUF` /
`buildEnderecoCompleto`, and the earlier revision of the latter) -/

/-- `cleanUF`: trim, upper-case; `null` unless exactly two ASCII capitals
(`/^[A-Z]{2}$/`) after that, and `null` for the country code `BR` (the
source's early `return null` on the failed test is written here as the
positive condition guarding the rest). -/
def cleanUF (value : String) : Option String :=
  let uf := jsToUpper (jsTrim value)
  if uf.data.length = 2 ∧ uf.data.all (fun c => 'A' ≤ c ∧ c ≤ 'Z') = true then
    if uf = "BR" then none else some uf
  else none

/-- The component record handed to the address builders. -/
structure AddrParts where
  logradouro : String := ""
  numero : String := ""
  bairro : String := ""
  cidade : String := ""
  uf : String := ""
  cep : String := ""
  pais : String := ""
  deriving DecidableEq

/-- `x?.trim()` as an optional component: dropped by `filter(Boolean)` when
empty. -/
def optTrim (s : String) : Option String :=
  let t := jsTrim s
  if t = "" then none else some t

/-- A non-empty string as an optional component (`cepLimpo || null`). -/
def optNonempty (s : String) : Option String := if s = "" then none else some s

/-- The seven component slots of the current `buildEnderecoCompleto`, in
source order; `none` slots are dropped by `filter(Boolean)`. -/
def addrSlots (a : AddrParts) : List (Option String) :=
  [optTrim a.logradouro, optTrim a.numero, optTrim a.bairro, optTrim a.cidade,
    cleanUF a.uf, optNonempty (cleanDigits a.cep), optTrim (jsOr a.pais ("Brasil"))]

/-- The surviving components. -/
def addrComponents (a : AddrParts) : List String := (addrSlots a).filterMap id

/-- The joined, whitespace-normalized address string `q`. -/
def joinedAddr (a : AddrParts) : String :=
  collapseWsTrim (String.intercalate (", ") (addrComponents a))

/-- `buildEnderecoCompleto` (sync.js, current revision): `null` when the
joined string is empty or is just the country name, case-insensitively. -/
def buildEnderecoCompleto (a : AddrParts) : Option String :=
  let q := joinedAddr a
  if q = "" ∨ jsToLower q = "brasil" then none else some q

/-- The component slots of the earlier revision: the raw trimmed `uf` (no
`cleanUF`), and `pais?.trim() || "Brasil"`, which is always present. -/
def addrSlotsLegacy (a : AddrParts) : List (Option String) :=
  [optTrim a.logradouro, optTrim a.numero, optTrim a.bairro, optTrim a.cidade,
    optTrim a.uf, optNonempty (cleanDigits a.cep), some (jsOr (jsTrim a.pais) ("Brasil"))]

/-- The earlier revision's joined string. -/
def joinedAddrLegacy (a : AddrParts) : String :=
  collapseWsTrim (String.intercalate (", ") ((addrSlotsLegacy a).filterMap id))

/-- The number of significant characters: length after removing commas and
spaces, `q.replace(/[, ]/g, "").length`. -/
def sigLen (q : String) : Nat :=
  (q.data.filter (fun c => ¬(c = ',' ∨ c = ' '))).length

/-- `buildEnderecoCompleto` (earlier revision, sync.js predecessor):
additionally rejects strings with fewer than 8 significant characters. -/
def buildEnderecoCompletoLegacy (a : AddrParts) : Option String :=
  let q := joinedAddrLegacy a
  if q = "" ∨ q = "Brasil" ∨ sigLen q < 8 then none else some q


/-! ## Equipment text parsing (sync.js `sanitizeEquipmentName` /
`parsePart`) and the `equipamentos` table writes of `processarCliente` -/

/-- The dash alternatives `[-–—]` of the source regexes. -/
def dashChar (c : Char) : Bool := c = '-' || c = '–' || c = '—'

/-- `replace(/^[A-Za-z]\/[0-9]{4}\/[0-9]+\s*[-–—]\s*/i, "")`: drop an
order-code prefix such as `S/2025/63699 - ` when the string starts with
one. -/
def stripOrderCode (s : String) : String :=
  match s.data with
  | c0 :: '/' :: rest =>
    if c0.isAlpha then
      match rest with
      | d1 :: d2 :: d3 :: d4 :: '/' :: rest2 =>
        if d1.isDigit ∧ d2.isDigit ∧ d3.isDigit ∧ d4.isDigit then
          let ds := rest2.takeWhile Char.isDigit
          if ds.isEmpty then s
          else
            match (rest2.drop ds.length).dropWhile wsChar with
            | h :: r4 => if dashChar h then String.mk (r4.dropWhile wsChar) else s
            | [] => s
        else s
      | _ => s
    else s
  | _ => s

/-- The scan of `match(/\[[^\]]+\]\s*(.+)$/)`: the first `[` whose first
following `]` encloses a non-empty block and has at least one character
after it; yields the characters after that `]`. -/
def findBracketRest : List Char → Option (List Char)
  | [] => none
  | '[' :: rest =>
    let content := rest.takeWhile (fun c => c ≠ ']')
    (match rest.drop content.length with
     | ']' :: rest2 =>
       if content.isEmpty ∨ rest2.isEmpty then findBracketRest rest else some rest2
     | _ => findBracketRest rest)
  | _ :: rest => findBracketRest rest

/-- Keep only the text after the first bracketed code block, when there is
one: the capture `(.+)$` skips the whitespace after `]`, except that on an
all-whitespace remainder the `\s*` backtracks and the capture keeps the
last whitespace character. -/
def bracketAfter (s : String) : String :=
  match findBracketRest s.data with
  | some rest =>
    let restAfterWs := rest.dropWhile wsChar
    if restAfterWs.isEmpty then
      String.mk ((rest.getLast?).toList)
    else String.mk restAfterWs
  | none => s

/-- `sanitizeEquipmentName`: trim, normalize typographic dashes, drop an
order-code prefix, keep only the text after a bracketed code, strip
leading separators/punctuation, collapse whitespace. -/
def sanitizeEquipmentName (raw : String) : String :=
  let s0 := jsTrim raw
  let s1 := String.mk (s0.data.map (fun c => if c = '–' ∨ c = '—' then '-' else c))
  let s2 := stripOrderCode s1
  let s3 := bracketAfter s2
  let s4 := String.mk (s3.data.dropWhile (fun c => wsChar c || dashChar c || c = ':'))
  collapseWsTrim s4

/-- The separator class `[\s\-–—x×\(*]` of the quantity regex; the `i` flag
makes the literal `x` also match `X`. -/
def qtyClassChar (c : Char) : Bool :=
  wsChar c || dashChar c || c = 'x' || c = 'X' || c = '×' || c = '(' || c = '*'

/-- The successful-quantity case of `p.match(/^(.*?)(?:[\s\-–—x×\(*]*([0-9]+)\)?)?\s*$/i)`
on a string already stripped of trailing whitespace: the lazy `(.*?)`
makes the match split at the leftmost point whose suffix is separator
chars, then digits, then an optional `)`.  Returns the captured prefix and
the digit characters, or `none` when the quantity group cannot match. -/
def parsePartSplit (t : List Char) : Option (List Char × List Char) :=
  let r := t.reverse
  let r1 := match r with | ')' :: rest => rest | _ => r
  let ds := r1.takeWhile Char.isDigit
  if ds.isEmpty then none
  else some (((r1.drop ds.length).dropWhile qtyClassChar).reverse, ds.reverse)

/-- `parsePart`: extract a trailing quantity (`parseInt(...) || null`, so a
written quantity of 0 becomes `null`) and sanitize the remaining name. -/
def parsePart (p : String) : String × Option Nat :=
  let t := (p.data.reverse.dropWhile wsChar).reverse
  match parsePartSplit t with
  | some (m1, ds) =>
    let qty := digitsToNat ds
    (sanitizeEquipmentName (jsTrim (String.mk m1)), if qty = 0 then none else some qty)
  | none => (sanitizeEquipmentName (jsTrim (String.mk t)), none)

/-- The fragment separators `/[;,\n|]+/`. -/
def sepChar (c : Char) : Bool := c = ';' || c = ',' || c = '\n' || c = '|'

/-- `equipmentRaw.split(/[;,\n|]+/).map(p => p.trim()).filter(Boolean)`. -/
def splitTrimFilter (s : String) : List String :=
  ((jsSplit s sepChar).map jsTrim).filter (fun t => t ≠ "")

/-- The full equipment-text parser: split into fragments, `parsePart` on
each. -/
def parseEquipmentText (raw : String) : List (String × Option Nat) :=
  (splitTrimFilter raw).map parsePart

/-- One persisted `equipamentos` row. -/
structure EquipRow where
  clienteId : Nat
  nome : String
  quantidade : Option Nat
  deriving DecidableEq

/-- One `INSERT INTO equipamentos` with the duplicate-key error swallowed:
the `(cliente_id, nome)` unique key keeps the first inserted row. -/
def insertEquip (tbl : List EquipRow) (cid : Nat) (nome : String) (qty : Option Nat) :
    List EquipRow :=
  if tbl.any (fun r => r.clienteId = cid ∧ r.nome = nome) then tbl
  else tbl ++ [⟨cid, nome, qty⟩]

/-- The equipment block of `processarCliente`: with non-empty (trimmed)
equipment text, delete every row of this customer, then insert each parsed
fragment in order. -/
def persistEquipamentos (tbl : List EquipRow) (cid : Nat) (equipmentField : String) :
    List EquipRow :=
  let equipmentRaw := jsTrim equipmentField
  if equipmentRaw = "" then tbl
  else
    let cleared := tbl.filter (fun r => r.clienteId ≠ cid)
    (parseEquipmentText equipmentRaw).foldl (fun t item => insertEquip t cid item.1 item.2) cleared

/-- First-occurrence-per-name deduplication of parsed items, the effect of
the unique key on a fresh table. -/
def dedupByName (items : List (String × Option Nat)) : List (String × Option Nat) :=
  items.foldl (fun acc it => if acc.any (fun x => x.1 = it.1) then acc else acc ++ [it]) []


/-! ## Spreadsheet reading (odoo.js `readCustomersFromXlsx` /
`mergeEquipment`) -/

/-- One spreadsheet entry as produced by the reader and consumed by the
driver. -/
structure Entry where
  name : String
  equipment : String
  deriving DecidableEq

/-- One spreadsheet row's relevant cells, already as strings. -/
structure SheetRow where
  cliente : String
  equip : String
  deriving DecidableEq

/-- `mergeEquipment`: split both texts on the fragment separators, trim,
drop empties, keep the first occurrence of each fragment, join with
`"; "`. -/
def mergeEquipment (a b : String) : String :=
  if a = "" ∧ b = "" then ("")
  else
    let parts :=
      (if a ≠ "" then jsSplit a sepChar else []) ++ (if b ≠ "" then jsSplit b sepChar else [])
    let s := (parts.map jsTrim).filter (fun t => t ≠ "")
    String.intercalate ("; ") (dedupFirst s)

/-- The reader's loop state: the fill-down values and the accumulated
entries (the `seen` map is the index of the unique entry with a given
name). -/
structure ReadState where
  lastCustomer : String
  lastEquipment : String
  customers : List Entry
  deriving DecidableEq

/-- Update the entry at one index. -/
def modifyAt : List Entry → Nat → (Entry → Entry) → List Entry
  | [], _, _ => []
  | e :: rest, 0, f => f e :: rest
  | e :: rest, n + 1, f => e :: modifyAt rest n f

/-- Index of the first entry with a given name; the entry names are kept
distinct, so this is exactly the reader's `seen` map content. -/
def lookupName : List Entry → String → Option Nat
  | [], _ => none
  | e :: rest, n => if e.name = n then some 0 else (lookupName rest n).map (· + 1)

/-- One row of `readCustomersFromXlsx`: fill down blank name/equipment
cells, skip rows with no resolved name, merge the equipment of an
already-seen name, append a new entry otherwise. -/
def readStep (st : ReadState) (row : SheetRow) : ReadState :=
  let name0 := jsTrim row.cliente
  let equip0 := jsTrim row.equip
  let name := if name0 = "" then st.lastCustomer else name0
  let lastC := if name = "" then st.lastCustomer else name
  let equip := if equip0 = "" then st.lastEquipment else equip0
  let lastE := if equip = "" then st.lastEquipment else equip
  if name = "" then ⟨lastC, lastE, st.customers⟩
  else
    match lookupName st.customers name with
    | some i =>
      ⟨lastC, lastE, modifyAt st.customers i (fun e => ⟨e.name, mergeEquipment e.equipment equip⟩)⟩
    | none => ⟨lastC, lastE, st.customers ++ [⟨name, equip⟩]⟩

/-- `readCustomersFromXlsx` over the extracted cell rows. -/
def readCustomersFromXlsx (rows : List SheetRow) : List Entry :=
  (rows.foldl readStep ⟨"", "", []⟩).customers

/-- The fill-down-resolved, non-empty customer names of the rows, with
repetitions, in row order. -/
def resolveNamesStep (st : String × List String) (row : SheetRow) : String × List String :=
  let name0 := jsTrim row.cliente
  let name := if name0 = "" then st.1 else name0
  (if name = "" then st.1 else name, if name = "" then st.2 else st.2 ++ [name])

/-- All resolved names of a sheet, with repetitions. -/
def resolvedNames (rows : List SheetRow) : List String :=
  (rows.foldl resolveNamesStep ("", [])).2

/-! ## The Reconciliation Driver (sync.js `syncClientes`) -/

/-- One element of the matched list `itens`. -/
structure Item where
  entry : Entry
  partner : Option Partner
  deriving DecidableEq

/-- The persisted cursor: `last_odoo_id` (NULL or an id) and
`last_entry_name` (`""` both for NULL and for the falsy empty string). -/
structure Cursor where
  lastOdooId : Option Nat
  lastEntryName : String
  deriving DecidableEq

/-- The cursor-resume normalization `norm`: NFD (modelled as identity on
the decomposed embedded strings), strip combining marks, trim, lower-case —
without whitespace collapsing, unlike `normalizeNameLocal`. -/
def normCursorName (s : String) : String :=
  jsToLower (jsTrim (String.mk (s.data.filter (fun c => !combiningMark c))))

/-- Locate the cursor's referenced entry in `itens`: by partner id when
`last_odoo_id` is set (no name fallback when that search misses), else by
normalized entry name when `last_entry_name` is non-empty. -/
def locateCursor (cursor : Cursor) (itens : List Item) : Option Nat :=
  match cursor.lastOdooId with
  | some oid =>
    itens.findIdx? (fun x =>
      match x.partner with
      | some p => p.id = oid
      | none => false)
  | none =>
    if cursor.lastEntryName ≠ "" then
      itens.findIdx? (fun x => normCursorName x.entry.name = normCursorName cursor.lastEntryName)
    else none

/-- `startIdx`: one past the located entry, or 0. -/
def startIdxOf (cursor : Cursor) (itens : List Item) : Nat :=
  match locateCursor cursor itens with
  | some k => k + 1
  | none => 0

/-- The driver's per-entry fatal-error test: the error name
`NominatimNetworkError` or the message marker `Falha de rede no Nominatim`. -/
def isNominatimFatal (err : JsErr) : Bool :=
  err.name = "NominatimNetworkError" || strContains err.message ("Falha de rede no Nominatim")

/-- What one pass's loop produced: the visited indices in order, the final
cursor, the pause reason when interrupted. -/
structure LoopResult where
  visited : List Nat
  cursor : Cursor
  pauseReason : Option String
  interrupted : Bool
  deriving DecidableEq

/-- The `for (let i = startIdx; ...)` loop of `syncClientes` over the
remaining items, with `proc` the outcome of `processarCliente`: a missing
partner is logged and skipped; success advances the cursor; a
Nominatim-fatal error persists the pause reason (`err.code || err.message`)
and breaks; any other error is logged and the loop continues. -/
def syncLoopAux (proc : Nat → Item → Except JsErr Bool) :
    List Item → Nat → Cursor → LoopResult
  | [], _, cur => ⟨[], cur, none, false⟩
  | it :: rest, i, cur =>
    match it.partner with
    | none =>
      let r := syncLoopAux proc rest (i + 1) cur
      { r with visited := i :: r.visited }
    | some p =>
      match proc i it with
      | Except.ok true =>
        let r := syncLoopAux proc rest (i + 1) ⟨some p.id, it.entry.name⟩
        { r with visited := i :: r.visited }
      | Except.ok false =>
        let r := syncLoopAux proc rest (i + 1) cur
        { r with visited := i :: r.visited }
      | Except.error e =>
        if isNominatimFatal e then ⟨[i], cur, some (jsOr e.code e.message), true⟩
        else
          let r := syncLoopAux proc rest (i + 1) cur
          { r with visited := i :: r.visited }

/-- The persisted `sync_state` row. -/
structure SyncState where
  cursor : Cursor
  pausedSince : Option Nat
  pausedReason : Option String
  deriving DecidableEq

/-- The pause-check prologue of `syncClientes`: on the first invocation of
the process lifetime (`clearedPauseOnStartup` false) clear any pause and
proceed; afterwards, a pause younger than 7 hours (`TIMESTAMPDIFF(HOUR,...)
< 7`, timestamps in seconds) skips the pass, an older one is cleared.
Returns the updated state and whether the pass does any work. -/
def checkPause (clearedPauseOnStartup : Bool) (st : SyncState) (now : Nat) : SyncState × Bool :=
  if !clearedPauseOnStartup then ({ st with pausedSince := none, pausedReason := none }, true)
  else
    match st.pausedSince with
    | none => (st, true)
    | some since =>
      if (now - since) / 3600 < 7 then (st, false)
      else ({ st with pausedSince := none, pausedReason := none }, true)

/-- One full `syncClientes` pass: pause check, cursor resume, the
processing loop, and the resulting persisted state.  Returns the
`clearedPauseOnStartup` flag after the pass, the persisted `sync_state`,
and the visited indices. -/
def syncClientesPass (proc : Nat → Item → Except JsErr Bool) (itens : List Item)
    (clearedPauseOnStartup : Bool) (st : SyncState) (now : Nat) :
    Bool × SyncState × List Nat :=
  let (st1, proceed) := checkPause clearedPauseOnStartup st now
  if !proceed then (true, st1, [])
  else
    let start := startIdxOf st1.cursor itens
    let r := syncLoopAux proc (itens.drop start) start st1.cursor
    (true,
      { cursor := r.cursor,
        pausedSince := match r.pauseReason with
          | some _ => some now
          | none => st1.pausedSince,
        pausedReason := match r.pauseReason with
          | some rsn => some rsn
          | none => st1.pausedReason },
      r.visited)

/-! ## Concrete scenarios used by the theorems -/

/-- A schedule on which every public-provider call yields HTTP 503. -/
def allBusySched : Nat → NomOutcome := fun _ => NomOutcome.resp 503 false []

/-- The resolver environment of the all-503 scenario: no Google key, and
the CEP branch unused. -/
def failEnv : GeoEnv :=
  { googleKey := none, viaCep := Except.ok none, google := Except.ok [],
    nomSched := allBusySched }

/-- A two-entry matched list with partners 1 and 2. -/
def twoItems : List Item :=
  [⟨⟨"A", ""⟩, some ⟨1, "A", "A"⟩⟩, ⟨⟨"B", ""⟩, some ⟨2, "B", "B"⟩⟩]

/-- The classification of one `processarCliente` outcome as the driver's
loop sees it: does it trigger the pause branch? -/
def fatalOutcome : Except JsErr Bool → Bool
  | Except.error e => isNominatimFatal e
  | Except.ok _ => false

/-- `dedupFirst` generalized to a starting accumulator (the `seen` set). -/
def dedupInto (seen : List String) (names : List String) : List String :=
  names.foldl (fun acc n => if n ∈ acc then acc else acc ++ [n]) seen


/-! ## Theorems -/

/-- C9: the equipment-text parser maps `"[COD123] Gerador x2; Compressor (1)"`
to exactly `[{name:"Gerador", qty:2}, {name:"Compressor", qty:1}]`, in that
order. -/
theorem C9_equipment_parse_example :
    parseEquipmentText ("[COD123] Gerador x2; Compressor (1)") =
      [("Gerador", some 2), ("Compressor", some 1)] := by decide

/-- C1: with HTTP 503 on every attempt of every configured host,
`nominatimSearch` returns `null` after consuming all 4 attempts of the
single host, `geocode` raises nothing (`geocodeAux` yields `Except.ok
none`) and returns plain `null` — indistinguishable from the ordinary
empty-result outcome — so the driver's pass neither records pause state
nor stops: it visits every remaining entry and advances the cursor.  The
driver's pause branch itself is reachable only from an error named
`NominatimNetworkError`, which the last conjunct shows would indeed pause
the pass were it ever raised. -/
theorem C1_geocode_swallows_fatal :
    nominatimSearch allBusySched ("Rua das Flores, 100, Centro, Maceio, AL, Brasil") 0 =
      (none, 4) ∧
    geocodeAux failEnv ("Rua das Flores, 100, Centro, Maceio, AL, Brasil") ("") =
      Except.ok none ∧
    geocode failEnv ("Rua das Flores, 100, Centro, Maceio, AL, Brasil") ("") = none ∧
    geocode { failEnv with nomSched := fun _ => NomOutcome.resp 200 true [] }
      ("Rua das Flores, 100, Centro, Maceio, AL, Brasil") ("") = none ∧
    syncClientesPass (fun _ _ => Except.ok true) twoItems true ⟨⟨none, ""⟩, none, none⟩ 0 =
      (true, ⟨⟨some 2, "B"⟩, none, none⟩, [0, 1]) ∧
    syncClientesPass (fun _ _ => Except.error { name := "NominatimNetworkError", code := "E" })
      twoItems true ⟨⟨none, ""⟩, none, none⟩ 0 =
      (true, ⟨⟨none, ""⟩, some 0, some ("E")⟩, [0]) := by decide

/-- C6 counterexample: a connection-refused fault and a DNS failure are
classified NOT retryable, contradicting the claim that every low-level
network fault (timeout, reset, refused, DNS failure) is retryable. -/
theorem C6_refused_dns_counterexample :
    isRetryableNetworkError
      { code := "ECONNREFUSED", message := "connect ECONNREFUSED 127.0.0.1:3000" } = false ∧
    isRetryableNetworkError
      { code := "ENOTFOUND", message := "getaddrinfo ENOTFOUND nominatim.openstreetmap.org" } =
      false := by decide

/-- C6 (amended): `isRetryableNetworkError` is a pure predicate over the
error's code and message, true exactly for the codes ECONNRESET,
ECONNABORTED, ETIMEDOUT or a lower-cased message containing
"socket hang up", "timeout" or "network" (connection-refused and DNS
faults are therefore not retryable); and an error on which it returns
false makes the attempt loop abandon the current host after that single
call, consuming none of the remaining retry budget. -/
theorem C6_retryable_classification :
    ∀ (err : JsErr),
      (isRetryableNetworkError err = true ↔
        (err.code = "ECONNRESET" ∨ err.code = "ECONNABORTED" ∨ err.code = "ETIMEDOUT" ∨
          strContains (jsToLower err.message) ("socket hang up") = true ∨
          strContains (jsToLower err.message) ("timeout") = true ∨
          strContains (jsToLower err.message) ("network") = true)) ∧
      (∀ (sched : Nat → NomOutcome) (fuel start : Nat),
        sched start = NomOutcome.netErr err → isRetryableNetworkError err = false →
        runAttempts sched (fuel + 1) start = (none, start + 1)) := by
  intro err
  constructor
  · simp [isRetryableNetworkError, Bool.or_eq_true, decide_eq_true_eq, or_assoc]
  · intro sched fuel start hs hr
    simp [runAttempts, hs, hr]

/-- C6 witness: the amended theorem applied to a concrete connection-refused
error arriving as the first of four attempts. -/
theorem C6_retryable_classification_witness :
    runAttempts
      (fun _ => NomOutcome.netErr
        { code := "ECONNREFUSED", message := "connect ECONNREFUSED 127.0.0.1:3000" }) 4 0 =
      (none, 1) :=
  (C6_retryable_classification
      { code := "ECONNREFUSED", message := "connect ECONNREFUSED 127.0.0.1:3000" }).2
    (fun _ => NomOutcome.netErr
      { code := "ECONNREFUSED", message := "connect ECONNREFUSED 127.0.0.1:3000" })
    3 0 rfl (by decide)

/-- C7 counterexample: the current `buildEnderecoCompleto` returns the
joined string `"A, Brasil"` although it has only 7 significant characters —
the minimum-significant-character threshold of the claim is not enforced by
the current revision. -/
theorem C7_threshold_counterexample :
    buildEnderecoCompleto { logradouro := "A" } = some ("A, Brasil") ∧
    sigLen ("A, Brasil") < 8 := by decide

/-- C7 (amended): the current revision of `buildEnderecoCompleto` treats
the address as absent exactly when the joined result is empty or
case-insensitively equals the country name "Brasil", and otherwise returns
the joined string; the fewer-than-8-significant-characters threshold is
enforced only by the earlier revision, which returns `null` exactly below
that threshold (its country-name-only and empty cases are subsumed,
"Brasil" having 6 significant characters). -/
theorem C7_address_absence_conditions :
    ∀ (a : AddrParts),
      buildEnderecoCompleto a =
        (if joinedAddr a = "" ∨ jsToLower (joinedAddr a) = "brasil" then none
          else some (joinedAddr a)) ∧
      buildEnderecoCompletoLegacy a =
        (if sigLen (joinedAddrLegacy a) < 8 then none else some (joinedAddrLegacy a)) := by
  intro a
  refine ⟨rfl, ?_⟩
  show (if joinedAddrLegacy a = "" ∨ joinedAddrLegacy a = "Brasil" ∨
      sigLen (joinedAddrLegacy a) < 8 then none else some (joinedAddrLegacy a)) = _
  by_cases h8 : sigLen (joinedAddrLegacy a) < 8
  · simp [h8]
  · have h1 : ¬(joinedAddrLegacy a = "") := by
      intro h; rw [h] at h8; exact h8 (by decide)
    have h2 : ¬(joinedAddrLegacy a = "Brasil") := by
      intro h; rw [h] at h8; exact h8 (by decide)
    simp [h8, h1, h2]

/-- Dropping a `none` slot leaves the joined components unchanged. -/
theorem filterMap_id_drop_none {α : Type} (l1 l2 : List (Option α)) :
    (l1 ++ none :: l2).filterMap id = (l1 ++ l2).filterMap id := by
  induction l1 with
  | nil => simp
  | cons h t ih => cases h <;> simp [ih]

/-- C8: `cleanUF` never yields the country code `BR` — it maps `BR` in any
casing or surrounding whitespace, and every value that is not exactly two
ASCII capitals after trim/upper-case, to `null`; the region slot of
`buildEnderecoCompleto`'s component list is exactly `cleanUF uf`, and when
that is `null` the joined components are those of the remaining slots, so
the built address never carries `BR` in the region position. -/
theorem C8_region_never_BR :
    ∀ (s : String) (a : AddrParts),
      cleanUF s ≠ some ("BR") ∧
      (jsToUpper (jsTrim s) = "BR" → cleanUF s = none) ∧
      (¬((jsToUpper (jsTrim s)).data.length = 2 ∧
          (jsToUpper (jsTrim s)).data.all (fun c => 'A' ≤ c ∧ c ≤ 'Z') = true) →
        cleanUF s = none) ∧
      (addrSlots a).get? 4 = some (cleanUF a.uf) ∧
      (cleanUF a.uf = none →
        addrComponents a =
          ([optTrim a.logradouro, optTrim a.numero, optTrim a.bairro, optTrim a.cidade] ++
            [optNonempty (cleanDigits a.cep), optTrim (jsOr a.pais ("Brasil"))]).filterMap
            id) := by
  intro s a
  refine ⟨?_, ?_, ?_, rfl, ?_⟩
  · intro hBR
    simp only [cleanUF] at hBR
    split at hBR
    · split at hBR
      · exact Option.noConfusion hBR
      · next hne => exact hne (Option.some.inj hBR)
    · exact Option.noConfusion hBR
  · intro h
    simp only [cleanUF, h]
    decide
  · intro h
    simp only [cleanUF]
    exact if_neg h
  · intro h
    show (addrSlots a).filterMap id = _
    unfold addrSlots
    rw [h]
    exact filterMap_id_drop_none
      [optTrim a.logradouro, optTrim a.numero, optTrim a.bairro, optTrim a.cidade]
      [optNonempty (cleanDigits a.cep), optTrim (jsOr a.pais ("Brasil"))]

/-- C8 witness: the theorem applied to the lower-cased, padded region value
`" br "`. -/
theorem C8_region_never_BR_witness :
    cleanUF (" br ") = none ∧
    addrComponents { logradouro := "Rua X", uf := " br " } = ["Rua X", "Brasil"] := by
  have h := C8_region_never_BR (" br ") { logradouro := "Rua X", uf := " br " }
  refine ⟨h.2.1 (by decide), ?_⟩
  rw [h.2.2.2.2 (h.2.1 (by decide))]
  decide

/-- Membership of a `(clienteId, nome)` key, restricted to one customer,
through `filter`. -/
theorem any_name_filter (cid : Nat) (n : String) :
    ∀ (t : List EquipRow),
      (t.any fun r => decide (r.clienteId = cid ∧ r.nome = n)) =
        ((t.filter fun r => r.clienteId = cid).any fun r => r.nome = n) := by
  intro t
  induction t with
  | nil => rfl
  | cons r rest ih =>
    by_cases hc : r.clienteId = cid <;> by_cases hn : r.nome = n <;> simp [hc, hn, ih]

/-- One swallowed-duplicate insert, seen through this customer's rows. -/
theorem insertEquip_filter_eq (t : List EquipRow) (cid : Nat) (n : String) (q : Option Nat) :
    (insertEquip t cid n q).filter (fun r => r.clienteId = cid) =
      (if ((t.filter fun r => r.clienteId = cid).any fun r => r.nome = n) = true then
        t.filter (fun r => r.clienteId = cid)
      else t.filter (fun r => r.clienteId = cid) ++ [⟨cid, n, q⟩]) := by
  by_cases hany : (t.any fun r => decide (r.clienteId = cid ∧ r.nome = n)) = true
  · have hf : ((t.filter fun r => r.clienteId = cid).any fun r => r.nome = n) = true := by
      rw [← any_name_filter]; exact hany
    unfold insertEquip
    rw [if_pos hany, if_pos hf]
  · have hf : ¬(((t.filter fun r => r.clienteId = cid).any fun r => r.nome = n) = true) := by
      rw [← any_name_filter]; exact hany
    unfold insertEquip
    rw [if_neg hany, if_neg hf, List.filter_append]
    congr 1
    simp

/-- One swallowed-duplicate insert leaves other customers' rows alone. -/
theorem insertEquip_filter_ne (t : List EquipRow) (cid : Nat) (n : String) (q : Option Nat) :
    (insertEquip t cid n q).filter (fun r => r.clienteId ≠ cid) =
      t.filter (fun r => r.clienteId ≠ cid) := by
  unfold insertEquip
  split
  · rfl
  · simp [List.filter_append]

/-- The whole insert loop leaves other customers' rows alone. -/
theorem insertLoop_other_rows (cid : Nat) (items : List (String × Option Nat)) :
    ∀ (t : List EquipRow),
      ((items.foldl (fun t2 it => insertEquip t2 cid it.1 it.2) t).filter
        (fun r => r.clienteId ≠ cid)) = t.filter (fun r => r.clienteId ≠ cid) := by
  induction items with
  | nil => intro t; rfl
  | cons it rest ih =>
    intro t
    rw [List.foldl_cons, ih, insertEquip_filter_ne]

/-- This customer's rows after the insert loop: the first-occurrence fold
over the parsed items, started from the rows already present. -/
theorem insertLoop_cid_rows (cid : Nat) (items : List (String × Option Nat)) :
    ∀ (t : List EquipRow),
      ((items.foldl (fun t2 it => insertEquip t2 cid it.1 it.2) t).filter
          (fun r => r.clienteId = cid)) =
        items.foldl
          (fun acc it =>
            if (acc.any fun r => r.nome = it.1) = true then acc else acc ++ [⟨cid, it.1, it.2⟩])
          (t.filter (fun r => r.clienteId = cid)) := by
  induction items with
  | nil => intro t; rfl
  | cons it rest ih =>
    intro t
    rw [List.foldl_cons, ih, List.foldl_cons, insertEquip_filter_eq]

/-- Name membership transported along the rows-of-one-customer map. -/
theorem any_map_rows (cid : Nat) (nm : String) :
    ∀ (acc : List (String × Option Nat)),
      ((acc.map fun it2 => (⟨cid, it2.1, it2.2⟩ : EquipRow)).any
          fun r => decide (r.nome = nm)) =
        (acc.any fun x => decide (x.1 = nm)) := by
  intro acc
  induction acc with
  | nil => rfl
  | cons a rest ih => simp only [List.map_cons, List.any_cons, ih]

/-- The first-occurrence fold on rows of a single customer is the image of
`dedupByName` on the parsed items. -/
theorem foldRows_eq_dedup (cid : Nat) :
    ∀ (items acc : List (String × Option Nat)),
      items.foldl
          (fun rows it =>
            if (rows.any fun r => r.nome = it.1) = true then rows
            else rows ++ [⟨cid, it.1, it.2⟩])
          (acc.map (fun it => (⟨cid, it.1, it.2⟩ : EquipRow))) =
        (items.foldl (fun a it => if a.any (fun x => x.1 = it.1) then a else a ++ [it]) acc).map
          (fun it => (⟨cid, it.1, it.2⟩ : EquipRow)) := by
  intro items
  induction items with
  | nil => intro acc; rfl
  | cons it rest ih =>
    intro acc
    rw [List.foldl_cons, List.foldl_cons]
    by_cases h : (acc.any fun x => decide (x.1 = it.1)) = true
    · have h2 : ((acc.map fun it2 => (⟨cid, it2.1, it2.2⟩ : EquipRow)).any
          fun r => decide (r.nome = it.1)) = true := by
        rw [any_map_rows]; exact h
      rw [if_pos h2, if_pos h, ih]
    · have h2 : ¬(((acc.map fun it2 => (⟨cid, it2.1, it2.2⟩ : EquipRow)).any
          fun r => decide (r.nome = it.1)) = true) := by
        rw [any_map_rows]; exact h
      rw [if_neg h2, if_neg h]
      have hm : (acc.map fun it2 => (⟨cid, it2.1, it2.2⟩ : EquipRow)) ++
          [(⟨cid, it.1, it.2⟩ : EquipRow)] =
          (acc ++ [it]).map fun it2 => (⟨cid, it2.1, it2.2⟩ : EquipRow) := by
        rw [List.map_append]; rfl
      rw [hm, ih]

/-- Filtering the complement then the predicate yields nothing. -/
theorem filter_ne_then_eq (tbl : List EquipRow) (cid : Nat) :
    ((tbl.filter fun r => r.clienteId ≠ cid).filter fun r => r.clienteId = cid) = [] := by
  induction tbl with
  | nil => rfl
  | cons r rest ih => by_cases hc : r.clienteId = cid <;> simp [hc, ih]

/-- Filtering the complement twice is filtering it once. -/
theorem filter_ne_idem (tbl : List EquipRow) (cid : Nat) :
    ((tbl.filter fun r => r.clienteId ≠ cid).filter fun r => r.clienteId ≠ cid) =
      tbl.filter fun r => r.clienteId ≠ cid := by
  induction tbl with
  | nil => rfl
  | cons r rest ih => by_cases hc : r.clienteId = cid <;> simp [hc, ih]

/-- With non-empty equipment text, the pass leaves for this customer
exactly the parsed items (first occurrence per name), whatever was stored
before. -/
theorem persist_cid_rows (tbl : List EquipRow) (cid : Nat) (raw : String)
    (h : jsTrim raw ≠ "") :
    (persistEquipamentos tbl cid raw).filter (fun r => r.clienteId = cid) =
      (dedupByName (parseEquipmentText (jsTrim raw))).map
        (fun it => (⟨cid, it.1, it.2⟩ : EquipRow)) := by
  simp only [persistEquipamentos, if_neg h]
  rw [insertLoop_cid_rows, filter_ne_then_eq]
  exact foldRows_eq_dedup cid (parseEquipmentText (jsTrim raw)) []

/-- The pass never touches other customers' rows. -/
theorem persist_other_rows (tbl : List EquipRow) (cid : Nat) (raw : String) :
    (persistEquipamentos tbl cid raw).filter (fun r => r.clienteId ≠ cid) =
      tbl.filter (fun r => r.clienteId ≠ cid) := by
  by_cases h : jsTrim raw = ""
  · simp only [persistEquipamentos, if_pos h]
  · simp only [persistEquipamentos, if_neg h]
    rw [insertLoop_other_rows, filter_ne_idem]

/-- C4: for a customer with non-empty equipment text, the sync pass deletes
all previously persisted line items of that customer and persists exactly
the items parsed from the current text (first occurrence per name, the
`(cliente_id, nome)` unique key swallowing duplicate inserts); rows of
other customers are untouched; in particular two passes with different
texts leave exactly the second pass's parsed items — the same rows as a
pass over an empty table. -/
theorem C4_equipment_replace :
    ∀ (tbl : List EquipRow) (cid : Nat) (raw1 raw2 : String),
      jsTrim raw2 ≠ "" →
      ((persistEquipamentos tbl cid raw2).filter (fun r => r.clienteId = cid) =
        (dedupByName (parseEquipmentText (jsTrim raw2))).map
          (fun it => (⟨cid, it.1, it.2⟩ : EquipRow))) ∧
      ((persistEquipamentos tbl cid raw2).filter (fun r => r.clienteId ≠ cid) =
        tbl.filter (fun r => r.clienteId ≠ cid)) ∧
      ((persistEquipamentos (persistEquipamentos tbl cid raw1) cid raw2).filter
          (fun r => r.clienteId = cid) =
        (persistEquipamentos ([] : List EquipRow) cid raw2).filter
          (fun r => r.clienteId = cid)) :=
  fun tbl cid raw1 raw2 h =>
    ⟨persist_cid_rows tbl cid raw2 h, persist_other_rows tbl cid raw2,
      (persist_cid_rows (persistEquipamentos tbl cid raw1) cid raw2 h).trans
        (persist_cid_rows [] cid raw2 h).symm⟩

/-- C4 witness: two passes on customer 1 starting from a table that already
holds rows for customers 1 and 2. -/
theorem C4_equipment_replace_witness :
    (persistEquipamentos
        (persistEquipamentos [⟨1, "Old", none⟩, ⟨2, "Keep", some 3⟩] 1 ("Gerador x2")) 1
        ("Compressor (1)")).filter (fun r => r.clienteId = 1) =
      [⟨1, "Compressor", some 1⟩] := by
  have h := C4_equipment_replace [⟨1, "Old", none⟩, ⟨2, "Keep", some 3⟩] 1 ("Gerador x2")
    ("Compressor (1)") (by decide)
  rw [h.2.2]
  decide

/-- The loop visits exactly the index range of the remaining items, in
order; a Nominatim-fatal outcome cuts the tail off, so the visited indices
are always a prefix of that range and equal it when no outcome is fatal. -/
theorem syncLoopAux_visited (proc : Nat → Item → Except JsErr Bool) :
    ∀ (l : List Item) (i : Nat) (cur : Cursor),
      (syncLoopAux proc l i cur).visited <+: List.range' i l.length ∧
      ((∀ (j : Nat) (x : Item), fatalOutcome (proc j x) = false) →
        (syncLoopAux proc l i cur).visited = List.range' i l.length) := by
  intro l
  induction l with
  | nil =>
    intro i cur
    exact ⟨ List.nil_prefix, fun _ => rfl⟩
  | cons it rest ih =>
    intro i cur
    rw [List.length_cons, List.range'_succ]
    cases hp : it.partner with
    | none =>
      simp only [syncLoopAux, hp]
      exact ⟨List.cons_prefix_cons.mpr ⟨rfl, (ih (i + 1) cur).1⟩,
        fun hnf => by rw [(ih (i + 1) cur).2 hnf]⟩
    | some p =>
      cases hpr : proc i it with
      | ok b =>
        cases b with
        | false =>
          simp only [syncLoopAux, hp, hpr]
          exact ⟨List.cons_prefix_cons.mpr ⟨rfl, (ih (i + 1) cur).1⟩,
            fun hnf => by rw [(ih (i + 1) cur).2 hnf]⟩
        | true =>
          simp only [syncLoopAux, hp, hpr]
          exact ⟨List.cons_prefix_cons.mpr ⟨rfl, (ih (i + 1) ⟨some p.id, it.entry.name⟩).1⟩,
            fun hnf => by rw [(ih (i + 1) ⟨some p.id, it.entry.name⟩).2 hnf]⟩
      | error e =>
        by_cases hf : isNominatimFatal e = true
        · simp only [syncLoopAux, hp, hpr]
          rw [if_pos hf]
          refine ⟨List.cons_prefix_cons.mpr ⟨rfl, List.nil_prefix⟩, fun hnf => ?_⟩
          exfalso
          have hcontra := hnf i it
          rw [hpr] at hcontra
          simp only [fatalOutcome] at hcontra
          rw [hcontra] at hf
          exact Bool.false_ne_true hf
        · simp only [syncLoopAux, hp, hpr]
          rw [if_neg hf]
          exact ⟨List.cons_prefix_cons.mpr ⟨rfl, (ih (i + 1) cur).1⟩,
            fun hnf => by rw [(ih (i + 1) cur).2 hnf]⟩

/-- C2: the resume logic — when the persisted cursor's referenced entry is
located (by CRM id when `last_odoo_id` is set, else by normalized entry
name) at index `k`, the pass starts at `k + 1` and, when nothing fatal
occurs, iterates exactly the indices `k+1 .. n-1` in order; with no cursor
or a cursor whose referenced entry is not in the list, it iterates
`0 .. n-1`; in every case the visited indices are a prefix of the scheduled
range (a fatal outcome only cuts the tail). -/
theorem C2_cursor_resume :
    ∀ (itens : List Item) (cursor : Cursor) (proc : Nat → Item → Except JsErr Bool) (k : Nat),
      (locateCursor cursor itens = some k → startIdxOf cursor itens = k + 1) ∧
      (locateCursor cursor itens = none → startIdxOf cursor itens = 0) ∧
      ((syncLoopAux proc (itens.drop (startIdxOf cursor itens)) (startIdxOf cursor itens)
          cursor).visited <+:
        List.range' (startIdxOf cursor itens) (itens.length - startIdxOf cursor itens)) ∧
      ((∀ (j : Nat) (x : Item), fatalOutcome (proc j x) = false) →
        (syncLoopAux proc (itens.drop (startIdxOf cursor itens)) (startIdxOf cursor itens)
            cursor).visited =
          List.range' (startIdxOf cursor itens) (itens.length - startIdxOf cursor itens)) := by
  intro itens cursor proc k
  refine ⟨?_, ?_, ?_, ?_⟩
  · intro h
    unfold startIdxOf
    rw [h]
  · intro h
    unfold startIdxOf
    rw [h]
  · have h := (syncLoopAux_visited proc (itens.drop (startIdxOf cursor itens))
      (startIdxOf cursor itens) cursor).1
    rwa [List.length_drop] at h
  · intro hnf
    have h := (syncLoopAux_visited proc (itens.drop (startIdxOf cursor itens))
      (startIdxOf cursor itens) cursor).2 hnf
    rwa [List.length_drop] at h

/-- C2 witness: a two-entry list whose cursor references the first entry by
CRM id; the pass starts at index 1 and visits exactly `[1]`. -/
theorem C2_cursor_resume_witness :
    startIdxOf ⟨some 1, ""⟩ twoItems = 0 + 1 ∧
    (syncLoopAux (fun _ _ => Except.ok true) (twoItems.drop (startIdxOf ⟨some 1, ""⟩ twoItems))
        (startIdxOf ⟨some 1, ""⟩ twoItems) ⟨some 1, ""⟩).visited =
      List.range' (startIdxOf ⟨some 1, ""⟩ twoItems)
        (twoItems.length - startIdxOf ⟨some 1, ""⟩ twoItems) := by
  have h := C2_cursor_resume twoItems ⟨some 1, ""⟩ (fun _ _ => Except.ok true) 0
  exact ⟨h.1 (by decide), h.2.2.2 (fun _ _ => rfl)⟩

/-- C3: pause gating — on the first invocation of the process lifetime the
persisted pause is cleared unconditionally and the pass behaves exactly as
with no pause; on later invocations a pause younger than 7 hours makes the
pass do nothing (state untouched, no entry visited), and a pause at least
7 hours old is cleared, the pass proceeding exactly as with no pause. -/
theorem C3_pause_gating :
    ∀ (proc : Nat → Item → Except JsErr Bool) (itens : List Item) (st : SyncState)
      (now since : Nat),
      (checkPause false st now = ({ st with pausedSince := none, pausedReason := none }, true) ∧
        syncClientesPass proc itens false st now =
          syncClientesPass proc itens true
            { st with pausedSince := none, pausedReason := none } now) ∧
      (st.pausedSince = some since → now - since < 7 * 3600 →
        syncClientesPass proc itens true st now = (true, st, [])) ∧
      (st.pausedSince = some since → 7 * 3600 ≤ now - since →
        syncClientesPass proc itens true st now =
          syncClientesPass proc itens true
            { st with pausedSince := none, pausedReason := none } now) := by
  intro proc itens st now since
  refine ⟨⟨rfl, rfl⟩, ?_, ?_⟩
  · intro hs hlt
    have hdiv : (now - since) / 3600 < 7 := (Nat.div_lt_iff_lt_mul (by decide)).mpr hlt
    simp only [syncClientesPass, checkPause, hs, if_pos hdiv]
    rfl
  · intro hs hge
    have hdiv : ¬((now - since) / 3600 < 7) := by
      rw [Nat.div_lt_iff_lt_mul (by decide)]
      exact Nat.not_lt.mpr hge
    simp only [syncClientesPass, checkPause, hs, if_neg hdiv]

/-- C3 witness: a pause set at time 0 blocks the pass one hour later, and
the first invocation of a lifetime clears that same pause. -/
theorem C3_pause_gating_witness :
    syncClientesPass (fun _ _ => Except.ok true) twoItems true
        ⟨⟨none, ""⟩, some 0, some ("net")⟩ 3600 =
      (true, ⟨⟨none, ""⟩, some 0, some ("net")⟩, []) ∧
    checkPause false ⟨⟨none, ""⟩, some 0, some ("net")⟩ 3600 =
      (⟨⟨none, ""⟩, none, none⟩, true) := by
  have h := C3_pause_gating (fun _ _ => Except.ok true) twoItems
    ⟨⟨none, ""⟩, some 0, some ("net")⟩ 3600 0
  exact ⟨h.2.1 rfl (by decide), h.1.1⟩

/-- C5 counterexample: a partner whose normalized `name` equals the
requested candidate is not matched at all when its `displayName` is
non-empty and different — the matcher computes one key per partner
(`display_name || name`), never checking both fields. -/
theorem C5_exact_stage_counterexample :
    normalizeNameLocal (Partner.mk 1 ("acme") ("x corp")).name ∈ normCandidates ("acme") ∧
    findMatchingPartner ("acme") [Partner.mk 1 ("acme") ("x corp")] = none := by decide

/-- The running-maximum fold keeps an element of the list (or the seed) and
bounds every length. -/
theorem foldl_pick_spec :
    ∀ (xs : List (Partner × Nat)) (x : Partner × Nat),
      (xs.foldl (fun best y => if best.2 < y.2 then y else best) x = x ∨
        xs.foldl (fun best y => if best.2 < y.2 then y else best) x ∈ xs) ∧
      x.2 ≤ (xs.foldl (fun best y => if best.2 < y.2 then y else best) x).2 ∧
      (∀ y ∈ xs, y.2 ≤ (xs.foldl (fun best y => if best.2 < y.2 then y else best) x).2) := by
  intro xs
  induction xs with
  | nil =>
    intro x
    exact ⟨Or.inl rfl, Nat.le_refl _, fun y hy => absurd hy (List.not_mem_nil y)⟩
  | cons y ys ih =>
    intro x
    rw [List.foldl_cons]
    obtain ⟨hmem, hle, hall⟩ := ih (if x.2 < y.2 then y else x)
    refine ⟨?_, ?_, ?_⟩
    · cases hmem with
      | inl h =>
        rw [h]
        by_cases hc : x.2 < y.2
        · rw [if_pos hc]; exact Or.inr (List.mem_cons_self y ys)
        · rw [if_neg hc]; exact Or.inl rfl
      | inr h => exact Or.inr (List.mem_cons_of_mem y h)
    · refine Nat.le_trans ?_ hle
      by_cases hc : x.2 < y.2
      · rw [if_pos hc]; exact Nat.le_of_lt hc
      · rw [if_neg hc]
    · intro z hz
      cases List.mem_cons.mp hz with
      | inl h =>
        rw [h]
        refine Nat.le_trans ?_ hle
        by_cases hc : x.2 < y.2
        · rw [if_pos hc]
        · rw [if_neg hc]; exact Nat.le_of_not_lt hc
      | inr h => exact hall z h

/-- `bestScore` yields a member of the score list whose length is
maximal. -/
theorem bestScore_spec (l : List (Partner × Nat)) (pr : Partner × Nat) :
    bestScore l = some pr → pr ∈ l ∧ ∀ y ∈ l, y.2 ≤ pr.2 := by
  cases l with
  | nil => intro h; exact Option.noConfusion h
  | cons x xs =>
    intro h
    have hpr : xs.foldl (fun best y => if best.2 < y.2 then y else best) x = pr :=
      Option.some.inj h
    obtain ⟨hmem, hle, hall⟩ := foldl_pick_spec xs x
    rw [hpr] at hmem hle hall
    refine ⟨?_, ?_⟩
    · cases hmem with
      | inl h2 => rw [h2]; exact List.mem_cons_self x xs
      | inr h2 => exact List.mem_cons_of_mem x h2
    · intro y hy
      cases List.mem_cons.mp hy with
      | inl h2 => rw [h2]; exact hle
      | inr h2 => exact hall y h2

/-- With no non-empty normalized candidate, the fuzzy score list is
empty. -/
theorem fuzzyScores_nil_of_no_candidates (req : String) (h : normCandidates req = []) :
    ∀ (ps : List Partner) (acc : List (Partner × Nat)),
      ps.foldl
          (fun acc2 p =>
            acc2 ++ ((normCandidates req).filterMap (fun c =>
              if partnerNorm p ≠ "" ∧ c ≠ "" ∧
                  (strContains (partnerNorm p) c || strContains c (partnerNorm p)) then
                some (p, (partnerNorm p).data.length)
              else none)))
          acc = acc := by
  intro ps
  induction ps with
  | nil => intro acc; rfl
  | cons p ps2 ih =>
    intro acc
    simp only [List.foldl_cons, h, List.filterMap_nil, List.append_nil]
    simp only [h, List.filterMap_nil, List.append_nil] at ih
    exact ih acc

/-- C5 (amended): the two-stage matching order holds for the single
normalized key the matcher computes per partner (`display_name` when
non-empty, else `name`): an exact key-equals-candidate match wins
immediately; otherwise the result is empty exactly when no
(partner, candidate) containment pair exists, and a returned fuzzy match
carries a maximal key length among all containment pairs. -/
theorem C5_matching_order :
    ∀ (requestedName : String) (partners : List Partner),
      (∀ p, exactFind requestedName partners = some p →
        findMatchingPartner requestedName partners = some p) ∧
      (exactFind requestedName partners = none →
        ((findMatchingPartner requestedName partners = none ↔
            fuzzyScores requestedName partners = []) ∧
          (∀ q, findMatchingPartner requestedName partners = some q →
            ∃ n, (q, n) ∈ fuzzyScores requestedName partners ∧
              ∀ y ∈ fuzzyScores requestedName partners, y.2 ≤ n))) := by
  intro req partners
  constructor
  · intro p hp
    by_cases hc : normCandidates req = []
    · exfalso
      have hn : exactFind req partners = none := by
        unfold exactFind
        refine List.find?_eq_none.mpr ?_
        intro x _
        rw [hc]
        simp
      rw [hn] at hp
      exact Option.noConfusion hp
    · unfold findMatchingPartner
      rw [if_neg hc, hp]
  · intro hnone
    by_cases hc : normCandidates req = []
    · refine ⟨⟨fun _ => ?_, fun _ => ?_⟩, fun q hq => ?_⟩
      · exact fuzzyScores_nil_of_no_candidates req hc partners []
      · unfold findMatchingPartner
        rw [if_pos hc]
      · unfold findMatchingPartner at hq
        rw [if_pos hc] at hq
        exact Option.noConfusion hq
    · have hFM : findMatchingPartner req partners =
          (bestScore (fuzzyScores req partners)).map (fun x => x.1) := by
        unfold findMatchingPartner
        rw [if_neg hc, hnone]
      refine ⟨⟨fun h => ?_, fun h => ?_⟩, fun q hq => ?_⟩
      · rw [hFM] at h
        cases hl : fuzzyScores req partners with
        | nil => rfl
        | cons x xs =>
          rw [hl] at h
          simp [bestScore] at h
      · rw [hFM, h]
        rfl
      · rw [hFM] at hq
        cases hb : bestScore (fuzzyScores req partners) with
        | none => rw [hb] at hq; exact Option.noConfusion hq
        | some pr =>
          rw [hb] at hq
          obtain ⟨hmem, hmax⟩ := bestScore_spec _ pr hb
          have hq1 : pr.1 = q := Option.some.inj hq
          refine ⟨pr.2, ?_, hmax⟩
          rw [← hq1, Prod.mk.eta]
          exact hmem

/-- C5 witness: the fuzzy stage applied where two partners both contain the
candidate; the longer key wins. -/
theorem C5_matching_order_witness :
    findMatchingPartner ("acme") [⟨1, "", "big acme sa"⟩, ⟨2, "", "acme group brasil"⟩] =
      some ⟨2, "", "acme group brasil"⟩ ∧
    ∃ n, ((⟨2, "", "acme group brasil"⟩ : Partner), n) ∈
        fuzzyScores ("acme") [⟨1, "", "big acme sa"⟩, ⟨2, "", "acme group brasil"⟩] ∧
      ∀ y ∈ fuzzyScores ("acme") [⟨1, "", "big acme sa"⟩, ⟨2, "", "acme group brasil"⟩],
        y.2 ≤ n := by
  have h := C5_matching_order ("acme") [⟨1, "", "big acme sa"⟩, ⟨2, "", "acme group brasil"⟩]
  exact ⟨by decide, (h.2 (by decide)).2 ⟨2, "", "acme group brasil"⟩ (by decide)⟩

/-- The resolved-name fold's output list factors through its
accumulator. -/
theorem resolveNames_acc (rows : List SheetRow) :
    ∀ (c : String) (out : List String),
      (rows.foldl resolveNamesStep (c, out)).2 =
        out ++ (rows.foldl resolveNamesStep (c, [])).2 := by
  induction rows with
  | nil => intro c out; simp
  | cons r rest ih =>
    intro c out
    rw [List.foldl_cons, List.foldl_cons]
    by_cases hn : (if jsTrim r.cliente = "" then c else jsTrim r.cliente) = ""
    · simp only [resolveNamesStep, if_pos hn]
      exact ih c out
    · simp only [resolveNamesStep, if_neg hn, List.nil_append]
      rw [ih (if jsTrim r.cliente = "" then c else jsTrim r.cliente)
          (out ++ [if jsTrim r.cliente = "" then c else jsTrim r.cliente]),
        ih (if jsTrim r.cliente = "" then c else jsTrim r.cliente)
          [if jsTrim r.cliente = "" then c else jsTrim r.cliente],
        List.append_assoc]

/-- Name-preserving updates leave the name image of the entry list
unchanged. -/
theorem modifyAt_map_name (f : Entry → Entry) (hf : ∀ en, (f en).name = en.name) :
    ∀ (acc : List Entry) (i : Nat),
      (modifyAt acc i f).map Entry.name = acc.map Entry.name := by
  intro acc
  induction acc with
  | nil => intro i; rfl
  | cons a rest ih =>
    intro i
    cases i with
    | zero => simp only [modifyAt, List.map_cons, hf]
    | succ n => simp only [modifyAt, List.map_cons, ih]

/-- The `seen` lookup succeeds exactly on the names already present. -/
theorem lookupName_isSome :
    ∀ (acc : List Entry) (n : String),
      (lookupName acc n).isSome = true ↔ n ∈ acc.map Entry.name := by
  intro acc n
  induction acc with
  | nil => simp [lookupName]
  | cons a rest ih =>
    by_cases h : a.name = n
    · simp [lookupName, h]
    · simp [lookupName, h, ih]
      exact fun h2 => absurd h2.symm h

/-- Folding names into a duplicate-free `seen` list keeps it
duplicate-free. -/
theorem dedupInto_nodup :
    ∀ (names seen : List String), seen.Nodup → (dedupInto seen names).Nodup := by
  intro names
  induction names with
  | nil => intro seen h; exact h
  | cons n rest ih =>
    intro seen h
    show (dedupInto (if n ∈ seen then seen else seen ++ [n]) rest).Nodup
    by_cases hm : n ∈ seen
    · rw [if_pos hm]; exact ih seen h
    · rw [if_neg hm]
      refine ih _ ?_
      simp [List.nodup_append, h, hm]

/-- One first-occurrence step of `dedupInto`. -/
theorem dedupInto_cons (seen : List String) (n : String) (tl : List String) :
    dedupInto seen (n :: tl) = dedupInto (if n ∈ seen then seen else seen ++ [n]) tl := rfl

/-- The reader's accumulated names are the first-occurrence fold of the
resolved names into the names already accumulated. -/
theorem readFold_names (rows : List SheetRow) :
    ∀ (c e : String) (acc : List Entry),
      ((rows.foldl readStep ⟨c, e, acc⟩).customers).map Entry.name =
        dedupInto (acc.map Entry.name) ((rows.foldl resolveNamesStep (c, [])).2) := by
  induction rows with
  | nil => intro c e acc; rfl
  | cons r rest ih =>
    intro c e acc
    rw [List.foldl_cons, List.foldl_cons]
    by_cases hn : (if jsTrim r.cliente = "" then c else jsTrim r.cliente) = ""
    · simp only [readStep, resolveNamesStep, if_pos hn]
      exact ih c _ acc
    · simp only [readStep, resolveNamesStep, if_neg hn, List.nil_append]
      cases hl : lookupName acc (if jsTrim r.cliente = "" then c else jsTrim r.cliente) with
      | some i =>
        have hmem : (if jsTrim r.cliente = "" then c else jsTrim r.cliente) ∈
            acc.map Entry.name := by
          rw [← lookupName_isSome, hl]; rfl
        simp only [hl]
        rw [ih,
          modifyAt_map_name
            (fun en => ⟨en.name, mergeEquipment en.equipment
              (if jsTrim r.equip = "" then e else jsTrim r.equip)⟩)
            (fun en => rfl),
          resolveNames_acc rest (if jsTrim r.cliente = "" then c else jsTrim r.cliente)
            [if jsTrim r.cliente = "" then c else jsTrim r.cliente],
          List.singleton_append, dedupInto_cons, if_pos hmem]
      | none =>
        have hmem : ¬((if jsTrim r.cliente = "" then c else jsTrim r.cliente) ∈
            acc.map Entry.name) := by
          rw [← lookupName_isSome, hl]
          simp
        simp only [hl]
        rw [ih, List.map_append,
          resolveNames_acc rest (if jsTrim r.cliente = "" then c else jsTrim r.cliente)
            [if jsTrim r.cliente = "" then c else jsTrim r.cliente],
          List.singleton_append, dedupInto_cons, if_neg hmem]
        rfl

/-- The `.customers` component of one reader step, written out: fill-down
resolution, skip on empty name, merge on a seen name, append otherwise. -/
theorem readStep_customers (st : ReadState) (row : SheetRow) :
    (readStep st row).customers =
      (let name := if jsTrim row.cliente = "" then st.lastCustomer else jsTrim row.cliente
       let equip := if jsTrim row.equip = "" then st.lastEquipment else jsTrim row.equip
       if name = "" then st.customers
       else
         match lookupName st.customers name with
         | some i =>
           modifyAt st.customers i (fun en => ⟨en.name, mergeEquipment en.equipment equip⟩)
         | none => st.customers ++ [⟨name, equip⟩]) := by
  by_cases hn : (if jsTrim row.cliente = "" then st.lastCustomer else jsTrim row.cliente) = ""
  · simp only [readStep, if_pos hn]
  · cases hl : lookupName st.customers
        (if jsTrim row.cliente = "" then st.lastCustomer else jsTrim row.cliente) with
    | some i => simp only [readStep, if_neg hn, hl]
    | none => simp only [readStep, if_neg hn, hl]

/-- `mergeEquipment` written as one expression: fragments of both texts,
trimmed, empties dropped, first occurrences kept, joined with `"; "`. -/
theorem mergeEquipment_spec :
    ∀ (a b : String),
      mergeEquipment a b =
        String.intercalate ("; ")
          (dedupFirst (((jsSplit a sepChar ++ jsSplit b sepChar).map jsTrim).filter
            (fun t => t ≠ ""))) := by
  intro a b
  by_cases ha : a = "" <;> by_cases hb : b = ""
  · subst ha; subst hb; rfl
  · subst ha
    have h0 : jsSplit ("") sepChar = [""] := rfl
    have ht : jsTrim ("") = "" := rfl
    simp only [mergeEquipment, h0]
    rw [if_neg (by simp [hb])]
    simp [hb, ht]
  · subst hb
    have h0 : jsSplit ("") sepChar = [""] := rfl
    have ht : jsTrim ("") = "" := rfl
    simp only [mergeEquipment, h0]
    rw [if_neg (by simp [ha])]
    simp [ha, ht]
  · simp only [mergeEquipment]
    rw [if_neg (by simp [ha])]
    simp [ha, hb]

/-- C10: the reader emits each non-empty fill-down-resolved customer name
at most once, in first-occurrence order (its name image is the
first-occurrence dedup of the resolved names, hence duplicate-free);
appending a row to a sheet applies exactly one reader step to the folded
state, and that step skips an empty resolved name, merges the resolved
equipment into the unique existing entry of an already-seen name via
`mergeEquipment`, and appends a new entry otherwise; `mergeEquipment`
splits both texts on the fragment separators, trims, drops empties,
removes duplicate fragments and re-joins with `"; "`. -/
theorem C10_sheet_dedup_merge :
    ∀ (rows pre : List SheetRow) (r : SheetRow),
      ((readCustomersFromXlsx rows).map Entry.name = dedupFirst (resolvedNames rows)) ∧
      ((readCustomersFromXlsx rows).map Entry.name).Nodup ∧
      (readCustomersFromXlsx (pre ++ [r]) =
        (readStep (pre.foldl readStep ⟨"", "", []⟩) r).customers) ∧
      (∀ (st : ReadState) (row : SheetRow),
        (readStep st row).customers =
          (let name := if jsTrim row.cliente = "" then st.lastCustomer else jsTrim row.cliente
           let equip := if jsTrim row.equip = "" then st.lastEquipment else jsTrim row.equip
           if name = "" then st.customers
           else
             match lookupName st.customers name with
             | some i =>
               modifyAt st.customers i
                 (fun en => ⟨en.name, mergeEquipment en.equipment equip⟩)
             | none => st.customers ++ [⟨name, equip⟩])) ∧
      (∀ (a b : String),
        mergeEquipment a b =
          String.intercalate ("; ")
            (dedupFirst (((jsSplit a sepChar ++ jsSplit b sepChar).map jsTrim).filter
              (fun t => t ≠ "")))) := by
  intro rows pre r
  refine ⟨readFold_names rows ("") ("") [], ?_, ?_, readStep_customers, mergeEquipment_spec⟩
  · show ((rows.foldl readStep ⟨"", "", []⟩).customers.map Entry.name).Nodup
    rw [readFold_names rows ("") ("") []]
    exact dedupInto_nodup _ _ List.nodup_nil
  · show ((pre ++ [r]).foldl readStep ⟨"", "", []⟩).customers = _
    rw [List.foldl_append]
    rfl

end MapaClientes
